import Mathlib

/-!
Verification development for the TaskMaster bot (a chat task manager).

This file gives a shallow embedding of the core subsystems of the
repository and proves properties about them:

* utils.py: parse_time and parse_time_of_day (the natural-language time
  expression grammar), embedded as executable functions on lists of
  characters.  Timestamps are modelled as Int values counting seconds
  since the epoch; the system clock is timezone-naive (a single local
  clock identified with the epoch scale), so datetime values and
  time.time() results live on the same Int axis.  The Python source
  reads the wall clock internally (datetime.now() and get_current_time()
  denote the same instant); the embedding passes that instant as the
  explicit argument now.
* database.py: the per-chat data model and the task operations
  mark_task_done, delete_task, set_reminder.
* bot.py: check_reminders, the scheduler tick that scans all chats for
  due reminders, collects the notifications to send and marks tasks as
  reminded.  Dispatch itself (context.bot.send_message) is an external
  effect: the embedding returns the list of notifications that the tick
  would send; any exception raised by the transport is caught by the
  source and does not influence the state update, which is why the
  state component of the model does not depend on dispatch outcomes.
* handlers.py: the completion-streak update block of
  button_callback_handler, embedded as update_streaks over the stats
  record, with calendar dates modelled as integer day numbers.

Python specifics that are modelled faithfully: regular expression
matching for the fixed patterns of utils.py is implemented directly
(maximal munch with the backtracking the patterns need); dictionary
iteration order is insertion order; `if reminder:` and
`if time_delta:` are truthiness tests, so a reminder equal to 0 and a
time delta of zero seconds behave as absent values.
-/

/-! ## Character and list helpers (ASCII, as used by the source inputs) -/

def isDigitC (c : Char) : Bool :=
  48 ≤ c.toNat && c.toNat ≤ 57

def isSpaceC (c : Char) : Bool :=
  c.toNat = 32 || c.toNat = 9 || c.toNat = 10 || c.toNat = 13 || c.toNat = 11 || c.toNat = 12

def isLowerAlphaC (c : Char) : Bool :=
  97 ≤ c.toNat && c.toNat ≤ 122

/-- ASCII lowercasing, the effect of str.lower on the ASCII inputs of the grammar. -/
def lowerC (c : Char) : Char :=
  if 65 ≤ c.toNat ∧ c.toNat ≤ 90 then Char.ofNat (c.toNat + 32) else c

def lowerL (s : List Char) : List Char :=
  s.map lowerC

def digitVal (c : Char) : Nat :=
  c.toNat - 48

/-- Decimal value of a digit string, the effect of int() on a group of \d characters. -/
def digitsToNat (ds : List Char) : Nat :=
  ds.foldl (fun a c => a * 10 + digitVal c) 0

def dropWhileL (p : Char → Bool) : List Char → List Char
  | [] => []
  | c :: cs => if p c then dropWhileL p cs else c :: cs

/-- Maximal munch of digits: the effect of a greedy \d+ group at the head. -/
def spanDigits : List Char → List Char × List Char
  | [] => ([], [])
  | c :: cs =>
    if isDigitC c then
      let r := spanDigits cs
      (c :: r.1, r.2)
    else ([], c :: cs)

/-- str.strip(): drop whitespace from both ends. -/
def stripL (s : List Char) : List Char :=
  ((dropWhileL isSpaceC ((dropWhileL isSpaceC s).reverse)).reverse)

def isPrefixL : List Char → List Char → Bool
  | [], _ => true
  | _ :: _, [] => false
  | a :: as, b :: bs => a == b && isPrefixL as bs

/-- First entry of an ordered table whose name is a prefix of s (dict iteration
order and regex alternation order); returns the name, its value and the rest of s. -/
def findTok : List (List Char × Int) → List Char → Option (List Char × Int × List Char)
  | [], _ => none
  | (nm, v) :: tl, s =>
    if isPrefixL nm s then some (nm, v, s.drop nm.length) else findTok tl s

/-! ## utils.parse_time: the three leading relative-form patterns -/

/-- Fullmatch of the pattern for the Xh Ym short form with the truthiness test
match.group(1) or match.group(2): at least one group must be present.
Returns (hours, minutes). -/
def matchShort (s : List Char) : Option (Nat × Nat) :=
  let p1 := spanDigits s
  let g1r : Option Nat × List Char :=
    if p1.1 = [] then (none, s)
    else
      match p1.2 with
      | 'h' :: r => (some (digitsToNat p1.1), r)
      | _ => (none, s)
  let r1 := dropWhileL isSpaceC g1r.2
  let p2 := spanDigits r1
  let g2r : Option Nat × List Char :=
    if p2.1 = [] then (none, r1)
    else
      match p2.2 with
      | 'm' :: r => (some (digitsToNat p2.1), r)
      | _ => (none, r1)
  if g2r.2 = [] ∧ (g1r.1.isSome ∨ g2r.1.isSome) then
    some ((g1r.1.getD 0), (g2r.1.getD 0))
  else none

/-- After a digits group, an optional literal word hour or minute with an
optional plural s, as in the long relative form. -/
def wordTail (w : List Char) (r : List Char) : Option (List Char) :=
  if isPrefixL w r then
    let r2 := r.drop w.length
    match r2 with
    | 's' :: r3 => some r3
    | _ => some r2
  else none

/-- Fullmatch of the pattern for the X hours Y minutes long form, same
group-presence truthiness test as the short form. -/
def matchLong (s : List Char) : Option (Nat × Nat) :=
  let p1 := spanDigits s
  let g1r : Option Nat × List Char :=
    if p1.1 = [] then (none, s)
    else
      match wordTail (('h') :: ('o') :: ('u') :: ('r') :: []) (dropWhileL isSpaceC p1.2) with
      | some r => (some (digitsToNat p1.1), r)
      | none => (none, s)
  let r1 := dropWhileL isSpaceC g1r.2
  let p2 := spanDigits r1
  let g2r : Option Nat × List Char :=
    if p2.1 = [] then (none, r1)
    else
      match wordTail (('m') :: ('i') :: ('n') :: ('u') :: ('t') :: ('e') :: []) (dropWhileL isSpaceC p2.2) with
      | some r => (some (digitsToNat p2.1), r)
      | none => (none, r1)
  if g2r.2 = [] ∧ (g1r.1.isSome ∨ g2r.1.isSome) then
    some ((g1r.1.getD 0), (g2r.1.getD 0))
  else none

/-- Fullmatch of the colon form pattern: digits, a colon, digits. -/
def matchColon (s : List Char) : Option (Nat × Nat) :=
  let p1 := spanDigits s
  if p1.1 = [] then none
  else
    match p1.2 with
    | ':' :: r =>
      let p2 := spanDigits r
      if p2.1 = [] then none
      else if p2.2 = [] then some (digitsToNat p1.1, digitsToNat p2.1) else none
    | _ => none

/-! ## utils.parse_time_of_day -/

/-- Fullmatch tail \s*(am|pm); true means pm. -/
def amPmEnd (s : List Char) : Option Bool :=
  match dropWhileL isSpaceC s with
  | 'a' :: 'm' :: [] => some false
  | 'p' :: 'm' :: [] => some true
  | _ => none

/-- Continuation of the 12-hour pattern after the hour group:
an optional colon with exactly two digits of minutes, then \s*(am|pm). -/
def amPmCore (h : Nat) (rest : List Char) : Option (Nat × Nat × Bool) :=
  match rest with
  | ':' :: r1 =>
    match r1 with
    | d1 :: d2 :: r2 =>
      if isDigitC d1 && isDigitC d2 then
        match amPmEnd r2 with
        | some pm => some (h, 10 * digitVal d1 + digitVal d2, pm)
        | none => none
      else none
    | _ => none
  | _ =>
    match amPmEnd rest with
    | some pm => some (h, 0, pm)
    | none => none

/-- Fullmatch of the 12-hour pattern: one or two digits of hour (greedy, with
the one-digit backtracking alternative), optional minutes, am or pm marker. -/
def amPmMatch (s : List Char) : Option (Nat × Nat × Bool) :=
  match s with
  | c1 :: c2 :: r =>
    if isDigitC c1 then
      if isDigitC c2 then
        match amPmCore (10 * digitVal c1 + digitVal c2) r with
        | some x => some x
        | none => amPmCore (digitVal c1) (c2 :: r)
      else amPmCore (digitVal c1) (c2 :: r)
    else none
  | _ => none

/-- Fullmatch of the 24-hour colon pattern: one or two digits, a colon,
exactly two digits. -/
def hourMinMatch (s : List Char) : Option (Nat × Nat) :=
  let p1 := spanDigits s
  if p1.1.length = 1 ∨ p1.1.length = 2 then
    match p1.2 with
    | ':' :: r =>
      let p2 := spanDigits r
      if p2.1.length = 2 ∧ p2.2 = [] then some (digitsToNat p1.1, digitsToNat p2.1) else none
    | _ => none
  else none

/-- Fullmatch of the pattern with a literal h separator and optional
two-digit minutes. -/
def hourHMatch (s : List Char) : Option (Nat × Nat) :=
  let p1 := spanDigits s
  if p1.1.length = 1 ∨ p1.1.length = 2 then
    match p1.2 with
    | 'h' :: r =>
      match r with
      | [] => some (digitsToNat p1.1, 0)
      | _ =>
        let p2 := spanDigits r
        if p2.1.length = 2 ∧ p2.2 = [] then some (digitsToNat p1.1, digitsToNat p2.1) else none
    | _ => none
  else none

/-- Fullmatch of a bare one- or two-digit number. -/
def hourOnlyMatch (s : List Char) : Option Nat :=
  let p1 := spanDigits s
  if (p1.1.length = 1 ∨ p1.1.length = 2) ∧ p1.2 = [] then some (digitsToNat p1.1) else none

/-- The converted 24-hour value of the 12-hour pattern: pm adds 12 below
noon, 12am becomes hour 0. -/
def amPmHour (pm : Bool) (h : Nat) : Nat :=
  if pm then (if h < 12 then h + 12 else h) else (if h = 12 then 0 else h)

/-- First pattern of parse_time_of_day: 12-hour clock with am or pm. -/
def ptodA (s : List Char) : Option Nat :=
  match amPmMatch s with
  | some (h, m, pm) =>
    if amPmHour pm h ≤ 23 ∧ m ≤ 59 then some (amPmHour pm h * 3600 + m * 60) else none
  | none => none

/-- Second pattern: 24-hour clock with a colon. -/
def ptodB (s : List Char) : Option Nat :=
  match hourMinMatch s with
  | some (h, m) => if h ≤ 23 ∧ m ≤ 59 then some (h * 3600 + m * 60) else none
  | none => none

/-- Third pattern: 24-hour clock with a literal h separator. -/
def ptodC (s : List Char) : Option Nat :=
  match hourHMatch s with
  | some (h, m) => if h ≤ 23 ∧ m ≤ 59 then some (h * 3600 + m * 60) else none
  | none => none

/-- Fourth pattern: a bare number, accepted only in the range 13 to 23. -/
def ptodD (s : List Char) : Option Nat :=
  match hourOnlyMatch s with
  | some h => if 13 ≤ h ∧ h ≤ 23 then some (h * 3600) else none
  | none => none

/-- utils.parse_time_of_day: a time of day as seconds from midnight, or none.
The four patterns are tried in source order; a pattern that matches but fails
its range check falls through to the next pattern, as in the source. -/
def parse_time_of_day (s0 : List Char) : Option Nat :=
  let s := stripL (lowerL s0)
  match ptodA s with
  | some v => some v
  | none =>
    match ptodB s with
    | some v => some v
    | none =>
      match ptodC s with
      | some v => some v
      | none => ptodD s

/-! ## Calendar arithmetic (datetime construction and timestamp)

The proleptic Gregorian calendar of the datetime module, with the local
clock identified with the epoch scale.  Day numbers count days since
1970-01-01. -/

def leapYear (y : Int) : Bool :=
  y % 4 = 0 && (y % 100 ≠ 0 || y % 400 = 0)

def daysInMonth (y m : Int) : Int :=
  if m = 2 then (if leapYear y then 29 else 28)
  else if m = 4 ∨ m = 6 ∨ m = 9 ∨ m = 11 then 30
  else 31

/-- The validity check of the datetime constructor; a failure raises
ValueError in the source. -/
def validDate (y m d : Int) : Bool :=
  1 ≤ y && y ≤ 9999 && 1 ≤ m && m ≤ 12 && 1 ≤ d && d ≤ daysInMonth y m

/-- Day number of a civil date (days since 1970-01-01). -/
def daysFromCivil (y m d : Int) : Int :=
  let y2 := if m ≤ 2 then y - 1 else y
  let era := Int.ediv y2 400
  let yoe := y2 - era * 400
  let mp := if 2 < m then m - 3 else m + 9
  let doy := Int.ediv (153 * mp + 2) 5 + d - 1
  let doe := yoe * 365 + Int.ediv yoe 4 - Int.ediv yoe 100 + doy
  era * 146097 + doe - 719468

/-- Civil date (year, month, day) of a day number. -/
def civilFromDays (z0 : Int) : Int × Int × Int :=
  let z := z0 + 719468
  let era := Int.ediv z 146097
  let doe := z - era * 146097
  let yoe := Int.ediv (doe - Int.ediv doe 1460 + Int.ediv doe 36524 - Int.ediv doe 146097) 365
  let y := yoe + era * 400
  let doy := doe - (365 * yoe + Int.ediv yoe 4 - Int.ediv yoe 100)
  let mp := Int.ediv (5 * doy + 2) 153
  let d := doy - Int.ediv (153 * mp + 2) 5 + 1
  let m := if mp < 10 then mp + 3 else mp - 9
  (if m ≤ 2 then y + 1 else y, m, d)

/-! ## utils.parse_time: the date patterns (re.search semantics) -/

/-- Optional year group of the numeric date patterns: a separator followed by
two to four digits (greedy).  Returns the group value and the rest; when the
group cannot match it is skipped and the rest starts at the separator. -/
def numYearOpt (sep : Char) (s : List Char) : Option Nat × List Char :=
  match s with
  | c :: r =>
    if c == sep then
      let p := spanDigits r
      if 2 ≤ p.1.length then
        (some (digitsToNat (p.1.take 4)), (p.1.drop 4) ++ p.2)
      else (none, s)
    else (none, s)
  | [] => (none, s)

/-- Day part of the numeric date patterns: one or two digits (greedy with the
one-digit alternative subsumed: a second digit is taken exactly when present),
then the optional year group. -/
def numDayPart (sep : Char) (m : Nat) (s : List Char) : Option (Nat × Nat × Option Nat × List Char) :=
  match s with
  | c1 :: r1 =>
    if isDigitC c1 then
      match r1 with
      | c2 :: _ =>
        if isDigitC c2 then
          let yr := numYearOpt sep (r1.drop 1)
          some (m, 10 * digitVal c1 + digitVal c2, yr.1, yr.2)
        else
          let yr := numYearOpt sep r1
          some (m, digitVal c1, yr.1, yr.2)
      | [] => some (m, digitVal c1, none, [])
    else none
  | [] => none

/-- Match of a numeric date pattern at the current position: one or two digits
of month (greedy, with one-digit backtracking), the separator, then the day
part. -/
def numDateAt (sep : Char) (s : List Char) : Option (Nat × Nat × Option Nat × List Char) :=
  match s with
  | c1 :: r1 =>
    if isDigitC c1 then
      let try1 : Option (Nat × Nat × Option Nat × List Char) :=
        match r1 with
        | c :: r => if c == sep then numDayPart sep (digitVal c1) r else none
        | [] => none
      match r1 with
      | c2 :: r2 =>
        if isDigitC c2 then
          match (match r2 with
                 | c :: r => if c == sep then numDayPart sep (10 * digitVal c1 + digitVal c2) r else none
                 | [] => none) with
          | some x => some x
          | none => try1
        else try1
      | [] => none
    else none
  | [] => none

/-- re.search for a numeric date pattern: leftmost position wins. -/
def numDateSearch (sep : Char) : List Char → Option (Nat × Nat × Option Nat × List Char)
  | [] => none
  | c :: r =>
    match numDateAt sep (c :: r) with
    | some x => some x
    | none => numDateSearch sep r

def monthTable : List (List Char × Int) :=
  [((('j') :: ('a') :: ('n') :: []), 1), ((('f') :: ('e') :: ('b') :: []), 2),
   ((('m') :: ('a') :: ('r') :: []), 3), ((('a') :: ('p') :: ('r') :: []), 4),
   ((('m') :: ('a') :: ('y') :: []), 5), ((('j') :: ('u') :: ('n') :: []), 6),
   ((('j') :: ('u') :: ('l') :: []), 7), ((('a') :: ('u') :: ('g') :: []), 8),
   ((('s') :: ('e') :: ('p') :: []), 9), ((('o') :: ('c') :: ('t') :: []), 10),
   ((('n') :: ('o') :: ('v') :: []), 11), ((('d') :: ('e') :: ('c') :: []), 12)]

/-- Four-digit year group of the month-name pattern, after the mandatory
space; an optional comma may precede the space. -/
def nameYearTry (u : List Char) : Option (Nat × List Char) :=
  match u with
  | ' ' :: d1 :: d2 :: d3 :: d4 :: rr =>
    if isDigitC d1 && isDigitC d2 && isDigitC d3 && isDigitC d4 then
      some (digitsToNat (d1 :: d2 :: d3 :: d4 :: []), rr)
    else none
  | _ => none

/-- Match of the month-name date pattern at the current position: a month-name
alternation, any further lowercase letters, a space, one or two digits of day,
then the optional year group. -/
def nameDateAt (s : List Char) : Option (Nat × Nat × Option Nat × List Char) :=
  match findTok monthTable s with
  | some (_, mnum, r0) =>
    let r1 := dropWhileL isLowerAlphaC r0
    match r1 with
    | ' ' :: r2 =>
      match r2 with
      | c1 :: r3 =>
        if isDigitC c1 then
          let dayRest : Nat × List Char :=
            match r3 with
            | c2 :: r5 => if isDigitC c2 then (10 * digitVal c1 + digitVal c2, r5) else (digitVal c1, r3)
            | [] => (digitVal c1, [])
          let yRest : Option Nat × List Char :=
            match dayRest.2 with
            | ',' :: rr =>
              (match nameYearTry rr with
               | some (yv, r) => (some yv, r)
               | none => (none, dayRest.2))
            | _ =>
              (match nameYearTry dayRest.2 with
               | some (yv, r) => (some yv, r)
               | none => (none, dayRest.2))
          some (mnum.toNat, dayRest.1, yRest.1, yRest.2)
        else none
      | [] => none
    | _ => none
  | none => none

def nameDateSearch : List Char → Option (Nat × Nat × Option Nat × List Char)
  | [] => none
  | c :: r =>
    match nameDateAt (c :: r) with
    | some x => some x
    | none => nameDateSearch r

/-- The body of the date-pattern loop for one successful regex match:
resolve the year default, construct the date (a ValueError skips to the
next pattern, yielding none), roll a past date into the next year for the
month/day condition of the source, then apply the trailing time of day
(noon when absent).  Returns the timestamp. -/
def processDateMatch (now : Int) (month day : Nat) (yearOpt : Option Nat) (rest : List Char) : Option Int :=
  let nowDay := Int.ediv now 86400
  let cd := civilFromDays nowDay
  let year : Int :=
    match yearOpt with
    | some y => if (y : Int) < 100 then (y : Int) + 2000 else (y : Int)
    | none => cd.1
  if validDate year month day then
    let ed := daysFromCivil year month day
    let edAdj : Option Int :=
      if ed < nowDay then
        if (month : Int) < cd.2.1 ∨ ((month : Int) = cd.2.1 ∧ (day : Int) < cd.2.2) then
          (if validDate (year + 1) month day then some (daysFromCivil (year + 1) month day) else none)
        else some ed
      else some ed
    match edAdj with
    | none => none
    | some e =>
      let tp := stripL rest
      if tp = [] then some (e * 86400 + 43200)
      else
        match parse_time_of_day tp with
        | some v => some (e * 86400 + (v : Int))
        | none => some (e * 86400)
  else none

/-- The date-pattern loop of parse_time: the three patterns are tried in
source order; a pattern that does not match, or whose date raises
ValueError, falls through to the next one. -/
def dateSearch (s : List Char) (now : Int) : Option Int :=
  let r1 : Option Int :=
    match numDateSearch '/' s with
    | some (m, d, y, rest) => processDateMatch now m d y rest
    | none => none
  match r1 with
  | some ts => some ts
  | none =>
    let r2 : Option Int :=
      match numDateSearch '-' s with
      | some (m, d, y, rest) => processDateMatch now m d y rest
      | none => none
    match r2 with
    | some ts => some ts
    | none =>
      match nameDateSearch s with
      | some (m, d, y, rest) => processDateMatch now m d y rest
      | none => none

/-! ## utils.parse_time: day words and the main function -/

def todayStr : List Char :=
  ('t') :: ('o') :: ('d') :: ('a') :: ('y') :: []

def tomorrowStr : List Char :=
  ('t') :: ('o') :: ('m') :: ('o') :: ('r') :: ('r') :: ('o') :: ('w') :: []

/-- The days_of_week dictionary in insertion order. -/
def daysOfWeek : List (List Char × Int) :=
  [((('m') :: ('o') :: ('n') :: ('d') :: ('a') :: ('y') :: []), 0),
   ((('m') :: ('o') :: ('n') :: []), 0),
   ((('t') :: ('u') :: ('e') :: ('s') :: ('d') :: ('a') :: ('y') :: []), 1),
   ((('t') :: ('u') :: ('e') :: []), 1),
   ((('t') :: ('u') :: ('e') :: ('s') :: []), 1),
   ((('w') :: ('e') :: ('d') :: ('n') :: ('e') :: ('s') :: ('d') :: ('a') :: ('y') :: []), 2),
   ((('w') :: ('e') :: ('d') :: []), 2),
   ((('t') :: ('h') :: ('u') :: ('r') :: ('s') :: ('d') :: ('a') :: ('y') :: []), 3),
   ((('t') :: ('h') :: ('u') :: []), 3),
   ((('t') :: ('h') :: ('u') :: ('r') :: ('s') :: []), 3),
   ((('f') :: ('r') :: ('i') :: ('d') :: ('a') :: ('y') :: []), 4),
   ((('f') :: ('r') :: ('i') :: []), 4),
   ((('s') :: ('a') :: ('t') :: ('u') :: ('r') :: ('d') :: ('a') :: ('y') :: []), 5),
   ((('s') :: ('a') :: ('t') :: []), 5),
   ((('s') :: ('u') :: ('n') :: ('d') :: ('a') :: ('y') :: []), 6),
   ((('s') :: ('u') :: ('n') :: []), 6)]

/-- Lines 223 to 257 of utils.py: the time-of-day application after the day
words have been resolved.  ts is the normalised time_str, off the resolved day
offset, remaining the rest after the day word.  A present but zero time delta
is falsy in the source, hence the v = 0 checks. -/
def afterDay (ts : List Char) (now today : Int) (off : Int) (remaining : List Char) : Option Int :=
  let r1 : Option Int :=
    if 0 < off ∨ remaining ≠ [] then
      match parse_time_of_day remaining with
      | some v =>
        if v ≠ 0 then
          let target := today + off * 86400 + (v : Int)
          some (if off = 0 ∧ target < now then target + 86400 else target)
        else none
      | none => none
    else none
  match r1 with
  | some x => some x
  | none =>
    let rem2 := if remaining = [] then ts else remaining
    match parse_time_of_day rem2 with
    | some v =>
      if v ≠ 0 then
        let target := today + (v : Int)
        some (if target < now then target + 86400 else target)
      else none
    | none => none

/-- utils.parse_time: text and the current instant to an absolute epoch
timestamp, or none on parse failure.  The Python weekday convention has
Monday as 0; day number 0 (1970-01-01) is a Thursday, hence the offset 3. -/
def parse_time (input : List Char) (now : Int) : Option Int :=
  let time_str := stripL (lowerL input)
  let today := now - now % 86400
  match matchShort time_str with
  | some (h, m) => some (now + (h : Int) * 3600 + (m : Int) * 60)
  | none =>
  match matchLong time_str with
  | some (h, m) => some (now + (h : Int) * 3600 + (m : Int) * 60)
  | none =>
  match matchColon time_str with
  | some (h, m) => some (now + (h : Int) * 3600 + (m : Int) * 60)
  | none =>
  if isPrefixL todayStr time_str then
    afterDay time_str now today 0 (stripL (time_str.drop 5))
  else if isPrefixL tomorrowStr time_str then
    afterDay time_str now today 1 (stripL (time_str.drop 8))
  else
    match findTok daysOfWeek time_str with
    | some (dayName, dayNum, rest) =>
      let cur := (Int.ediv now 86400 + 3) % 7
      let du0 := (dayNum - cur) % 7
      let rem := stripL rest
      let du :=
        if du0 = 0 ∧ dayName.length < time_str.length then
          match parse_time_of_day rem with
          | some v =>
            if v ≠ 0 ∧ (today + (v : Int)) % 86400 < now % 86400 then 7 else du0
          | none => du0
        else du0
      if du = 0 then
        match dateSearch time_str now with
        | some ts2 => some ts2
        | none => afterDay time_str now today du rem
      else afterDay time_str now today du rem
    | none =>
      match dateSearch time_str now with
      | some ts2 => some ts2
      | none => afterDay time_str now today 0 time_str

/-! ## database.py: data model -/

/-- A task record as created by database.add_task.  Optional dictionary keys
are Option fields; reminded is absent until bot.check_reminders sets it, and
task.get of a missing reminded key yields False, so it is a Bool field with
false for the absent key.  Timestamps kept as opaque strings in the source
stay strings. -/
structure TaskRec where
  text : String
  done : Bool
  date_added : String
  active : Bool
  priority : String
  category : String
  notes : String
  progress : Nat
  attachments : List String
  updated_at : String
  due_date : Option Int
  reminder : Option Int
  assignee : Option String
  reminded : Bool
deriving DecidableEq

/-- The completion-streak counters of the stats record. -/
structure Streaks where
  current : Nat
  longest : Nat
  last_completion_date : Option Int
deriving DecidableEq

structure Stats where
  tasks_added : Nat
  tasks_completed : Nat
  last_active : String
  streaks : Streaks
deriving DecidableEq

/-- Per-chat state: the value of one key of the store dictionary. -/
structure ChatData where
  type : String
  tasks : List TaskRec
  settings : List (String × String)
  stats : Stats
deriving DecidableEq

/-- In-place update of one list element, the effect of an item assignment at a
valid index. -/
def listModify (f : TaskRec → TaskRec) : Nat → List TaskRec → List TaskRec
  | _, [] => []
  | 0, t :: ts => f t :: ts
  | n + 1, t :: ts => t :: listModify f n ts

/-! ## database.py: task operations

Each operation guards on 0 <= task_index < len(tasks); outside that range it
returns False and performs no mutation.  The index is an Int so that negative
arguments are representable. -/

def mark_task_done (cd : ChatData) (i : Int) : Bool × ChatData :=
  if 0 ≤ i ∧ i < (cd.tasks.length : Int) then
    (true, { cd with tasks := listModify (fun t => { t with done := true }) i.toNat cd.tasks })
  else (false, cd)

def delete_task (cd : ChatData) (i : Int) : Bool × ChatData :=
  if 0 ≤ i ∧ i < (cd.tasks.length : Int) then
    (true, { cd with tasks := listModify (fun t => { t with active := false }) i.toNat cd.tasks })
  else (false, cd)

def set_reminder (cd : ChatData) (i : Int) (reminder_time : Int) : Bool × ChatData :=
  if 0 ≤ i ∧ i < (cd.tasks.length : Int) then
    (true, { cd with tasks := listModify (fun t => { t with reminder := some reminder_time }) i.toNat cd.tasks })
  else (false, cd)

/-! ## bot.py: check_reminders -/

/-- The scan condition of check_reminders for one task: the task is active,
its reminder key is present and truthy (a reminder of 0 is falsy in Python),
due, and the task has not been reminded yet.  The done flag is not consulted. -/
def dueCheck (now : Int) (t : TaskRec) : Bool :=
  t.active &&
  (match t.reminder with
   | some r => decide (r ≠ 0) && decide (r ≤ now)
   | none => false) &&
  !t.reminded

/-- The inner loop of check_reminders over the enumerated tasks of one chat,
starting at index i: collects (index, text) pairs for the due reminders and
marks those tasks as reminded. -/
def scanTasks (now : Int) (i : Nat) : List TaskRec → List (Nat × String) × List TaskRec
  | [] => ([], [])
  | t :: ts =>
    let r := scanTasks now (i + 1) ts
    if dueCheck now t then ((i, t.text) :: r.1, { t with reminded := true } :: r.2)
    else (r.1, t :: r.2)

/-- bot.check_reminders as a function of the store and the scan instant: it
returns the list of notifications to send, as (chat id, task index, task
text) triples in scan order, together with the updated store.  Sending is an
external effect whose failures are caught by the source, so the state result
does not depend on dispatch outcomes. -/
def check_reminders (data : List (String × ChatData)) (now : Int) :
    List (String × Nat × String) × List (String × ChatData) :=
  match data with
  | [] => ([], [])
  | (cid, cd) :: rest =>
    let s := scanTasks now 0 cd.tasks
    let r := check_reminders rest now
    (s.1.map (fun p => (cid, p.1, p.2)) ++ r.1, (cid, { cd with tasks := s.2 }) :: r.2)

/-! ## handlers.py: the streak update of button_callback_handler -/

/-- Lines 570 to 594 of handlers.py: the streak update on a completion event.
Calendar dates are integer day numbers; nowDay is the date of the completion.
The source compares the date difference with timedelta(days=1) and then
checks for a strictly newer day; longest is raised to current only inside
that increment branch. -/
def update_streaks (s : Streaks) (nowDay : Int) : Streaks :=
  match s.last_completion_date with
  | some last =>
    if nowDay - last ≤ 1 then
      if last < nowDay then
        let c := s.current + 1
        { current := c,
          longest := if s.longest < c then c else s.longest,
          last_completion_date := some nowDay }
      else { s with last_completion_date := some nowDay }
    else { current := 1, longest := s.longest, last_completion_date := some nowDay }
  | none => { current := 1, longest := s.longest, last_completion_date := some nowDay }

/-! ## Helper lemmas on the character-list functions -/

theorem dropWhileL_cons_false (p : Char → Bool) (c : Char) (cs : List Char)
    (h : p c = false) : dropWhileL p (c :: cs) = c :: cs := by
  simp [dropWhileL, h]

theorem dropWhileL_length_le (p : Char → Bool) (s : List Char) :
    (dropWhileL p s).length ≤ s.length := by
  induction s with
  | nil => simp [dropWhileL]
  | cons c cs ih =>
    by_cases h : p c
    · simp only [dropWhileL, h, if_true]
      exact Nat.le_trans ih (Nat.le_succ _)
    · simp [dropWhileL, h]

theorem dropWhileL_eq_self_of_length (p : Char → Bool) (s : List Char)
    (h : (dropWhileL p s).length = s.length) : dropWhileL p s = s := by
  induction s with
  | nil => simp [dropWhileL]
  | cons c cs ih =>
    by_cases hc : p c
    · exfalso
      have h2 : (dropWhileL p (c :: cs)).length ≤ cs.length := by
        simpa [dropWhileL, hc] using dropWhileL_length_le p cs
      simp [List.length_cons] at h
      omega
    · simp [dropWhileL, hc]

theorem dropWhileL_head_false (p : Char → Bool) (s : List Char)
    (h : dropWhileL p s = s) (hne : s ≠ []) :
    ∃ c cs, s = c :: cs ∧ p c = false := by
  cases s with
  | nil => exact absurd rfl hne
  | cons c cs =>
    refine ⟨c, cs, rfl, ?_⟩
    by_cases hc : p c
    · exfalso
      have h2 : (dropWhileL p cs).length ≤ cs.length := dropWhileL_length_le p cs
      have h3 : dropWhileL p (c :: cs) = dropWhileL p cs := by simp [dropWhileL, hc]
      rw [h3] at h
      have := congrArg List.length h
      simp at this
      omega
    · simpa using hc

theorem stripL_parts (t : List Char) (h : stripL t = t) :
    dropWhileL isSpaceC t = t ∧ dropWhileL isSpaceC t.reverse = t.reverse := by
  have hlen1 : (dropWhileL isSpaceC t).length ≤ t.length := dropWhileL_length_le _ _
  have hlen2 :
      (dropWhileL isSpaceC ((dropWhileL isSpaceC t).reverse)).length
        ≤ (dropWhileL isSpaceC t).length := by
    simpa using dropWhileL_length_le isSpaceC ((dropWhileL isSpaceC t).reverse)
  have hlen3 : (stripL t).length = t.length := by rw [h]
  have hlen4 : (stripL t).length
      = (dropWhileL isSpaceC ((dropWhileL isSpaceC t).reverse)).length := by
    simp [stripL]
  have heq1 : (dropWhileL isSpaceC t).length = t.length := by omega
  have ha : dropWhileL isSpaceC t = t := dropWhileL_eq_self_of_length _ _ heq1
  refine ⟨ha, ?_⟩
  have hb : dropWhileL isSpaceC t.reverse = t.reverse := by
    apply dropWhileL_eq_self_of_length
    have : (dropWhileL isSpaceC t.reverse).length = t.length := by
      rw [ha] at hlen2 hlen4
      omega
    simpa using this
  exact hb

theorem stripL_of_ends (s : List Char)
    (h1 : dropWhileL isSpaceC s = s)
    (h2 : dropWhileL isSpaceC s.reverse = s.reverse) :
    stripL s = s := by
  simp [stripL, h1, h2]

/-! ## Character class facts -/

theorem lowerC_of_digit (c : Char) (h : isDigitC c = true) : lowerC c = c := by
  have h2 : 48 ≤ c.toNat ∧ c.toNat ≤ 57 := by simpa [isDigitC] using h
  have h3 : ¬ (65 ≤ c.toNat ∧ c.toNat ≤ 90) := by omega
  simp [lowerC, h3]

theorem isSpaceC_of_digit (c : Char) (h : isDigitC c = true) : isSpaceC c = false := by
  have h2 : 48 ≤ c.toNat ∧ c.toNat ≤ 57 := by simpa [isDigitC] using h
  simp [isSpaceC]
  omega

theorem lowerL_digits (ds : List Char) (h : ∀ c ∈ ds, isDigitC c = true) :
    lowerL ds = ds := by
  induction ds with
  | nil => rfl
  | cons c cs ih =>
    simp only [lowerL, List.map_cons]
    rw [lowerC_of_digit c (h c (by simp))]
    have := ih (fun x hx => h x (by simp [hx]))
    simpa [lowerL] using this

theorem spanDigits_append (ds : List Char) (c : Char) (cs : List Char)
    (hds : ∀ x ∈ ds, isDigitC x = true) (hc : isDigitC c = false) :
    spanDigits (ds ++ c :: cs) = (ds, c :: cs) := by
  induction ds with
  | nil => simp [spanDigits, hc]
  | cons d ds2 ih =>
    have hd : isDigitC d = true := hds d (by simp)
    have := ih (fun x hx => hds x (by simp [hx]))
    simp [spanDigits, hd, this]

/-! ## Sample store data used by concrete evaluations -/

def sampleTask : TaskRec :=
  { text := "write report", done := false, date_added := "t0", active := true,
    priority := "normal", category := "default", notes := "", progress := 0,
    attachments := [], updated_at := "t0", due_date := none, reminder := none,
    assignee := none, reminded := false }

def sampleStats : Stats :=
  { tasks_added := 1, tasks_completed := 0, last_active := "t0",
    streaks := { current := 0, longest := 0, last_completion_date := none } }

/-- A chat whose only task has already been notified for reminder 100. -/
def remindedChat : ChatData :=
  { type := "user",
    tasks := [{ sampleTask with reminder := some 100, reminded := true }],
    settings := [(("language"), ("en"))],
    stats := sampleStats }

/-- A chat whose only task is completed but active, with a due reminder. -/
def doneDueChat : ChatData :=
  { type := "user",
    tasks := [{ sampleTask with done := true, reminder := some 100 }],
    settings := [(("language"), ("en"))],
    stats := sampleStats }

/-- A chat whose only task has a due, unnotified reminder. -/
def dueChat : ChatData :=
  { type := "user",
    tasks := [{ sampleTask with reminder := some 100 }],
    settings := [(("language"), ("en"))],
    stats := sampleStats }

/-! ## C1: the streak invariant on first completion -/

/-- C1: the claim states that longest = max(longest, current) is applied after
every update of current, so that longest is at least current after any streak
update.  Evaluating the streak update of button_callback_handler at a fresh
stats record shows the first-completion branch sets current to 1 while
leaving longest at 0, so the invariant longest at least current fails there:
the max step is missing from the first-completion and streak-reset branches. -/
theorem c1_first_completion_longest_not_updated :
    (update_streaks { current := 0, longest := 0, last_completion_date := none } 20000).current = 1 ∧
    (update_streaks { current := 0, longest := 0, last_completion_date := none } 20000).longest = 0 := by
  constructor <;> rfl

/-! ## C4: bare day-word inputs -/

/-- C4: the claim states that an input consisting solely of today, tomorrow,
or a day-of-week name parses to 12:00 on the resolved day.  Evaluating
parse_time shows all such inputs fail to parse (the noon default exists only
in the absolute-date branch of the source): at the instant 140400 (a Friday),
today, tomorrow, friday (the same weekday), monday and mon all return none. -/
theorem c4_bare_day_words_return_none :
    parse_time (("today").toList) 140400 = none ∧
    parse_time (("tomorrow").toList) 140400 = none ∧
    parse_time (("friday").toList) 140400 = none ∧
    parse_time (("monday").toList) 140400 = none ∧
    parse_time (("mon").toList) 140400 = none := by
  refine ⟨?_, ?_, ?_, ?_, ?_⟩ <;> decide

/-! ## C2: set_reminder and the reminded flag -/

/-- C2 counterexample: reassigning the reminder of the already-notified task
of remindedChat to the new value 500 leaves reminded equal to true; the claim
says the reassignment resets reminded to false. -/
theorem c2_counter_reminded_stays_true :
    ((set_reminder remindedChat 0 500).2.tasks.map TaskRec.reminder) = [some 500] ∧
    ((set_reminder remindedChat 0 500).2.tasks.map TaskRec.reminded) = [true] := by
  constructor <;> decide

theorem listModify_get (f : TaskRec → TaskRec) (n : Nat) (ts : List TaskRec) :
    (listModify f n ts)[n]? = ts[n]?.map f := by
  induction ts generalizing n with
  | nil => simp [listModify]
  | cons t ts2 ih =>
    cases n with
    | zero => simp [listModify]
    | succ k => simpa [listModify] using ih k

/-- C2 amended: for an in-range index, set_reminder returns True and replaces
only the reminder value of the addressed task; the reminded flag keeps its
prior value (it is not reset to false), so a task already notified does not
become eligible for a new notification. -/
theorem c2_amended_set_reminder_keeps_reminded (cd : ChatData) (i : Int) (r : Int) (t : TaskRec)
    (h0 : 0 ≤ i) (h1 : i < (cd.tasks.length : Int))
    (h2 : cd.tasks[i.toNat]? = some t) :
    (set_reminder cd i r).1 = true ∧
    (set_reminder cd i r).2.tasks[i.toNat]? = some { t with reminder := some r } ∧
    ((set_reminder cd i r).2.tasks[i.toNat]?).map TaskRec.reminded = some t.reminded := by
  have hcond : 0 ≤ i ∧ i < (cd.tasks.length : Int) := ⟨h0, h1⟩
  refine ⟨?_, ?_, ?_⟩ <;>
    simp [set_reminder, hcond, listModify_get, h2]

/-- Concrete instance of the amended C2 statement at remindedChat. -/
theorem c2_amended_witness :
    (set_reminder remindedChat 0 500).1 = true ∧
    (set_reminder remindedChat 0 500).2.tasks[0]?
      = some { sampleTask with reminder := some 500, reminded := true } ∧
    ((set_reminder remindedChat 0 500).2.tasks[0]?).map TaskRec.reminded = some true := by
  have h := c2_amended_set_reminder_keeps_reminded remindedChat 0 500
    { sampleTask with reminder := some 100, reminded := true }
    (by decide) (by decide) (by decide)
  exact h

/-! ## C9: out-of-range task indices -/

/-- C9: for an out-of-range index (negative or at least the number of stored
tasks), mark_task_done, delete_task and set_reminder each return False and
leave the chat state unchanged. -/
theorem c9_out_of_range_no_mutation (cd : ChatData) (i : Int) (r : Int)
    (h : i < 0 ∨ (cd.tasks.length : Int) ≤ i) :
    mark_task_done cd i = (false, cd) ∧
    delete_task cd i = (false, cd) ∧
    set_reminder cd i r = (false, cd) := by
  have hn : ¬ (0 ≤ i ∧ i < (cd.tasks.length : Int)) := by
    rcases h with h | h <;> omega
  refine ⟨?_, ?_, ?_⟩ <;> simp [mark_task_done, delete_task, set_reminder, hn]

/-- Concrete instance of C9 at index -1 of remindedChat. -/
theorem c9_witness :
    mark_task_done remindedChat (-1) = (false, remindedChat) ∧
    delete_task remindedChat (-1) = (false, remindedChat) ∧
    set_reminder remindedChat (-1) 7 = (false, remindedChat) :=
  c9_out_of_range_no_mutation remindedChat (-1) 7 (Or.inl (by decide))

/-! ## C3 counterexample: a completed task is still dispatched -/

/-- C3 counterexample: doneDueChat holds a single task with done true and
active true whose reminder 100 is due and unnotified at instant 200; the tick
dispatches it, while the claim says a completed task is excluded. -/
theorem c3_counter_done_task_dispatched :
    (check_reminders [(("1"), doneDueChat)] 200).1 = [(("1"), 0, ("write report"))] ∧
    ((check_reminders [(("1"), doneDueChat)] 200).2.map
      (fun p => p.2.tasks.map TaskRec.reminded)) = [[true]] := by
  constructor <;> decide

/-! ## C6 counterexample: a midnight time of day -/

/-- C6 counterexample: at instant 140400 (Friday 15:00) the input friday 12am
names the current weekday with a time of day (00:00) strictly earlier than the
current time of day, yet parse_time fails: a zero time delta is falsy in the
source, so the rollover to the next week never happens and every later branch
also treats the time as absent.  The claim predicts the following Friday at
00:00 (691200). -/
theorem c6_counter_friday_midnight :
    parse_time (("friday 12am").toList) 140400 = none := by
  decide

/-! ## Scheduler tick lemmas -/

/-- The per-task effect of one tick: exactly the due tasks get their reminded
flag set; every other task (and every other field) is untouched. -/
def updTask (now : Int) (t : TaskRec) : TaskRec :=
  if dueCheck now t then { t with reminded := true } else t

theorem scanTasks_snd (now : Int) (i : Nat) (ts : List TaskRec) :
    (scanTasks now i ts).2 = ts.map (updTask now) := by
  induction ts generalizing i with
  | nil => simp [scanTasks]
  | cons t ts2 ih =>
    by_cases h : dueCheck now t
    · simp [scanTasks, h, updTask, ih]
    · simp [scanTasks, h, updTask, ih]

theorem check_reminders_snd (d : List (String × ChatData)) (now : Int) :
    (check_reminders d now).2 =
      d.map (fun p => (p.1, { p.2 with tasks := p.2.tasks.map (updTask now) })) := by
  induction d with
  | nil => simp [check_reminders]
  | cons p rest ih =>
    cases p with
    | mk cid cd => simp [check_reminders, scanTasks_snd, ih]

theorem exists_getElem_cons (t : TaskRec) (ts : List TaskRec) (P : Nat → TaskRec → Prop) :
    (∃ k t2, (t :: ts)[k]? = some t2 ∧ P k t2) ↔
      (P 0 t ∨ ∃ k t2, ts[k]? = some t2 ∧ P (k + 1) t2) := by
  constructor
  · rintro ⟨k, t2, hget, hp⟩
    cases k with
    | zero =>
      left
      simp at hget
      subst hget
      exact hp
    | succ k2 =>
      right
      exact ⟨k2, t2, by simpa using hget, hp⟩
  · rintro (hp | ⟨k, t2, hget, hp⟩)
    · exact ⟨0, t, by simp, hp⟩
    · exact ⟨k + 1, t2, by simpa using hget, hp⟩

theorem scanTasks_fst_mem (now : Int) (i : Nat) (ts : List TaskRec) (j : Nat) (s : String) :
    (j, s) ∈ (scanTasks now i ts).1 ↔
      ∃ k t, ts[k]? = some t ∧ j = i + k ∧ dueCheck now t = true ∧ s = t.text := by
  induction ts generalizing i with
  | nil => simp [scanTasks]
  | cons t ts2 ih =>
    rw [exists_getElem_cons t ts2 (fun k t2 => j = i + k ∧ dueCheck now t2 = true ∧ s = t2.text)]
    cases h : dueCheck now t with
    | true =>
      rw [show (scanTasks now i (t :: ts2)).1 = (i, t.text) :: (scanTasks now (i + 1) ts2).1 from
        by simp [scanTasks, h]]
      rw [List.mem_cons, ih (i + 1)]
      simp only [Prod.mk.injEq]
      constructor
      · rintro (⟨hj, hs⟩ | ⟨k, t2, hget, hj, hdue, hs⟩)
        · exact Or.inl ⟨by omega, trivial, hs⟩
        · exact Or.inr ⟨k, t2, hget, by omega, hdue, hs⟩
      · rintro (⟨hj, _, hs⟩ | ⟨k, t2, hget, hj, hdue, hs⟩)
        · exact Or.inl ⟨by omega, hs⟩
        · exact Or.inr ⟨k, t2, hget, by omega, hdue, hs⟩
    | false =>
      rw [show (scanTasks now i (t :: ts2)).1 = (scanTasks now (i + 1) ts2).1 from
        by simp [scanTasks, h]]
      rw [ih (i + 1)]
      constructor
      · rintro ⟨k, t2, hget, hj, hdue, hs⟩
        exact Or.inr ⟨k, t2, hget, by omega, hdue, hs⟩
      · rintro (⟨hj, hdue, hs⟩ | ⟨k, t2, hget, hj, hdue, hs⟩)
        · exact absurd hdue (by simp)
        · exact ⟨k, t2, hget, by omega, hdue, hs⟩

theorem check_reminders_fst_mem (d : List (String × ChatData)) (now : Int)
    (c : String) (j : Nat) (s : String) :
    (c, j, s) ∈ (check_reminders d now).1 ↔
      ∃ cd, (c, cd) ∈ d ∧ (j, s) ∈ (scanTasks now 0 cd.tasks).1 := by
  induction d with
  | nil => simp [check_reminders]
  | cons p rest ih =>
    obtain ⟨cid, cd0⟩ := p
    simp only [check_reminders, List.mem_append, List.mem_map, List.mem_cons, ih, Prod.mk.injEq]
    constructor
    · rintro (⟨⟨j2, s2⟩, hmem, hcid, hj, hs⟩ | ⟨cd, hcd, hmem⟩)
      · subst hcid
        subst hj
        subst hs
        exact ⟨cd0, Or.inl ⟨rfl, rfl⟩, hmem⟩
      · exact ⟨cd, Or.inr hcd, hmem⟩
    · rintro ⟨cd, (⟨hc, hcd⟩ | hcd), hmem⟩
      · subst hc
        subst hcd
        exact Or.inl ⟨(j, s), hmem, rfl, rfl, rfl⟩
      · exact Or.inr ⟨cd, hcd, hmem⟩

/-! ## C10: the tick is a frame-preserving update -/

/-- C10: a tick rewrites the store pointwise: every chat keeps its id, chat
type, settings and stats, and its task list is mapped task by task; a task
meeting the dispatch condition (active, truthy due reminder, not yet
reminded) changes only its reminded flag to true, and every other task is
returned unchanged. -/
theorem c10_tick_frame (d : List (String × ChatData)) (now : Int) :
    (check_reminders d now).2 =
      d.map (fun p =>
        (p.1,
          { p.2 with
            tasks := p.2.tasks.map
              (fun t => if dueCheck now t then { t with reminded := true } else t) })) :=
  check_reminders_snd d now

theorem dueCheck_done_irrelevant (now : Int) (t : TaskRec) (b : Bool) :
    dueCheck now { t with done := b } = dueCheck now t := by
  cases t
  rfl

/-! ## C3 amended: the dispatch condition ignores the done flag -/

/-- C3 amended: a tick dispatches exactly the tasks that are active, carry a
truthy due reminder and are not yet reminded; the done flag is not part of
the scan condition, so a completed but active task with a due reminder is
still dispatched, and only soft-deleted tasks (active false) are excluded. -/
theorem c3_amended_dispatch_ignores_done (d : List (String × ChatData)) (now : Int)
    (c : String) (j : Nat) (s : String) :
    ((c, j, s) ∈ (check_reminders d now).1 ↔
      ∃ cd t, (c, cd) ∈ d ∧ cd.tasks[j]? = some t ∧ dueCheck now t = true ∧ s = t.text) ∧
    (∀ t b, dueCheck now { t with done := b } = dueCheck now t) := by
  constructor
  · rw [check_reminders_fst_mem]
    constructor
    · rintro ⟨cd, hcd, hmem⟩
      rw [scanTasks_fst_mem] at hmem
      obtain ⟨k, t, hget, hj, hdue, hs⟩ := hmem
      exact ⟨cd, t, hcd, by rw [show j = k from by omega]; exact hget, hdue, hs⟩
    · rintro ⟨cd, t, hcd, hget, hdue, hs⟩
      refine ⟨cd, hcd, ?_⟩
      rw [scanTasks_fst_mem]
      exact ⟨j, t, hget, by omega, hdue, hs⟩
  · intro t b
    exact dueCheck_done_irrelevant now t b

/-! ## C5: at-most-once dispatch across ticks -/

theorem dueCheck_updTask (now now2 : Int) (t : TaskRec) :
    dueCheck now2 (updTask now t) = if dueCheck now t then false else dueCheck now2 t := by
  by_cases h : dueCheck now t
  · simp only [updTask, h, if_true]
    cases t
    simp [dueCheck]
  · simp [updTask, h]

theorem scanTasks_fst_upd_nil (now : Int) (i : Nat) (ts : List TaskRec) :
    (scanTasks now i (ts.map (updTask now))).1 = [] := by
  induction ts generalizing i with
  | nil => simp [scanTasks]
  | cons t ts2 ih =>
    have h : dueCheck now (updTask now t) = false := by
      rw [dueCheck_updTask]
      by_cases h2 : dueCheck now t <;> simp [h2]
    simp [scanTasks, h, ih]

theorem mem_map_store (d : List (String × ChatData)) (g : ChatData → ChatData)
    (c : String) (cd2 : ChatData)
    (h : (c, cd2) ∈ d.map (fun p => (p.1, g p.2))) :
    ∃ cd, (c, cd) ∈ d ∧ cd2 = g cd := by
  induction d with
  | nil => simp at h
  | cons p rest ih =>
    obtain ⟨cid, cd0⟩ := p
    simp only [List.map_cons, List.mem_cons, Prod.mk.injEq] at h
    rcases h with ⟨hc, hcd⟩ | h
    · subst hc
      exact ⟨cd0, List.mem_cons_self _ _, hcd⟩
    · obtain ⟨cd, hcd, heq⟩ := ih h
      exact ⟨cd, List.mem_cons_of_mem _ hcd, heq⟩

theorem nodup_keys_unique (d : List (String × ChatData)) (c : String) (a b : ChatData)
    (hnd : (d.map Prod.fst).Nodup) (ha : (c, a) ∈ d) (hb : (c, b) ∈ d) : a = b := by
  induction d with
  | nil => simp at ha
  | cons p rest ih =>
    obtain ⟨cid, cd0⟩ := p
    simp only [List.map_cons, List.nodup_cons] at hnd
    obtain ⟨hnotin, hnd2⟩ := hnd
    simp only [List.mem_cons, Prod.mk.injEq] at ha hb
    rcases ha with ⟨hc1, ha1⟩ | ha1
    · rcases hb with ⟨hc2, hb1⟩ | hb1
      · rw [ha1, hb1]
      · exfalso
        apply hnotin
        subst hc1
        exact List.mem_map_of_mem Prod.fst hb1
    · rcases hb with ⟨hc2, hb1⟩ | hb1
      · exfalso
        apply hnotin
        subst hc2
        exact List.mem_map_of_mem Prod.fst ha1
      · exact ih hnd2 ha1 hb1

/-- C5: with a well-formed store (chat ids are unique, as dictionary keys
are), a second tick at the same instant dispatches nothing at all, and a
notification dispatched by one tick is never dispatched again by the
following tick at any later (or any other) instant: the scan marks a task
reminded before the send is attempted, independently of dispatch success. -/
theorem c5_at_most_once (d : List (String × ChatData)) (now now2 : Int)
    (hnd : (d.map Prod.fst).Nodup) :
    (check_reminders (check_reminders d now).2 now).1 = [] ∧
    ∀ e, e ∈ (check_reminders d now).1 →
      e ∉ (check_reminders (check_reminders d now).2 now2).1 := by
  constructor
  · rw [check_reminders_snd]
    rw [List.eq_nil_iff_forall_not_mem]
    rintro ⟨c, j, s⟩ hmem
    rw [check_reminders_fst_mem] at hmem
    obtain ⟨cd2, hcd2, hscan⟩ := hmem
    obtain ⟨cd, _, rfl⟩ :=
      mem_map_store d (fun cd => { cd with tasks := cd.tasks.map (updTask now) }) c cd2 hcd2
    have : (scanTasks now 0 (cd.tasks.map (updTask now))).1 = [] :=
      scanTasks_fst_upd_nil now 0 cd.tasks
    rw [this] at hscan
    simp at hscan
  · rintro ⟨c, j, s⟩ hmem hmem2
    rw [check_reminders_fst_mem] at hmem hmem2
    obtain ⟨cd, hcd, hscan⟩ := hmem
    obtain ⟨cd2, hcd2, hscan2⟩ := hmem2
    rw [check_reminders_snd] at hcd2
    obtain ⟨cd3, hcd3, rfl⟩ :=
      mem_map_store d (fun cd => { cd with tasks := cd.tasks.map (updTask now) }) c cd2 hcd2
    have hcdeq : cd3 = cd := nodup_keys_unique d c cd3 cd hnd hcd3 hcd
    subst hcdeq
    rw [scanTasks_fst_mem] at hscan hscan2
    obtain ⟨k, t, hget, hj, hdue, hs⟩ := hscan
    obtain ⟨k2, t2, hget2, hj2, hdue2, hs2⟩ := hscan2
    have hkk : k2 = k := by omega
    rw [hkk] at hget2
    simp only [List.getElem?_map, hget, Option.map_some] at hget2
    have ht2 : t2 = updTask now t := by
      cases hget2
      rfl
    rw [ht2, dueCheck_updTask, hdue] at hdue2
    simp at hdue2

/-- Concrete instance of C5 at a one-chat store with a due reminder. -/
theorem c5_witness :
    (check_reminders (check_reminders [(("1"), dueChat)] 200).2 200).1 = [] ∧
    (("1"), 0, ("write report")) ∉ (check_reminders (check_reminders [(("1"), dueChat)] 200).2 500).1 := by
  have h1 := c5_at_most_once [(("1"), dueChat)] 200 200 (by decide)
  have h2 := c5_at_most_once [(("1"), dueChat)] 200 500 (by decide)
  exact ⟨h1.1, h2.2 ((("1"), 0, ("write report"))) (by decide)⟩

/-! ## Matcher lemmas for the relative and colon forms -/

theorem spanDigits_all (ds : List Char) (h : ∀ c ∈ ds, isDigitC c = true) :
    spanDigits ds = (ds, []) := by
  induction ds with
  | nil => simp [spanDigits]
  | cons c cs ih =>
    have hc : isDigitC c = true := h c (by simp)
    have := ih (fun x hx => h x (by simp [hx]))
    simp [spanDigits, hc, this]

theorem stripL_id_of (s : List Char) (c1 : Char) (r1 : List Char) (c2 : Char) (r2 : List Char)
    (hs1 : s = c1 :: r1) (hs2 : s.reverse = c2 :: r2)
    (h1 : isSpaceC c1 = false) (h2 : isSpaceC c2 = false) : stripL s = s := by
  apply stripL_of_ends
  · rw [hs1]
    exact dropWhileL_cons_false _ _ _ h1
  · rw [hs2]
    exact dropWhileL_cons_false _ _ _ h2

theorem lowerL_append (a b : List Char) : lowerL (a ++ b) = lowerL a ++ lowerL b := by
  simp [lowerL]

theorem lowerL_cons (c : Char) (cs : List Char) : lowerL (c :: cs) = lowerC c :: lowerL cs := by
  simp [lowerL]

theorem matchShort_pair (ds es : List Char)
    (hd : ds ≠ []) (hd2 : ∀ c ∈ ds, isDigitC c = true)
    (he : es ≠ []) (he2 : ∀ c ∈ es, isDigitC c = true) :
    matchShort (ds ++ 'h' :: ' ' :: (es ++ ('m') :: [])) = some (digitsToNat ds, digitsToNat es) := by
  obtain ⟨e, es2, rfl⟩ : ∃ e es2, es = e :: es2 := by
    cases es with
    | nil => exact absurd rfl he
    | cons e es2 => exact ⟨e, es2, rfl⟩
  have h1 : spanDigits (ds ++ 'h' :: (' ' :: ((e :: es2) ++ ('m') :: []))) =
      (ds, 'h' :: (' ' :: ((e :: es2) ++ ('m') :: []))) :=
    spanDigits_append ds 'h' _ hd2 (by decide)
  have h2 : spanDigits ((e :: es2) ++ ('m') :: []) = (e :: es2, ('m') :: []) :=
    spanDigits_append (e :: es2) 'm' [] he2 (by decide)
  have h3 : dropWhileL isSpaceC (' ' :: ((e :: es2) ++ ('m') :: [])) = (e :: es2) ++ ('m') :: [] := by
    have hsp : isSpaceC ' ' = true := by decide
    have hed : isSpaceC e = false := isSpaceC_of_digit e (he2 e (by simp))
    simp [dropWhileL, hsp, hed]
  simp only [List.cons_append] at h1 h2 h3
  simp [matchShort, h1, h2, h3, hd]

theorem matchShort_hours (ds : List Char)
    (hd : ds ≠ []) (hd2 : ∀ c ∈ ds, isDigitC c = true) :
    matchShort (ds ++ ('h') :: []) = some (digitsToNat ds, 0) := by
  have h1 : spanDigits (ds ++ ('h') :: []) = (ds, ('h') :: []) :=
    spanDigits_append ds 'h' [] hd2 (by decide)
  simp [matchShort, h1, hd, dropWhileL, spanDigits]

theorem matchShort_minutes (es : List Char)
    (he : es ≠ []) (he2 : ∀ c ∈ es, isDigitC c = true) :
    matchShort (es ++ ('m') :: []) = some (0, digitsToNat es) := by
  obtain ⟨e, es2, rfl⟩ : ∃ e es2, es = e :: es2 := by
    cases es with
    | nil => exact absurd rfl he
    | cons e es2 => exact ⟨e, es2, rfl⟩
  have h1 : spanDigits ((e :: es2) ++ ('m') :: []) = (e :: es2, ('m') :: []) :=
    spanDigits_append (e :: es2) 'm' [] he2 (by decide)
  have hed : isSpaceC e = false := isSpaceC_of_digit e (he2 e (by simp))
  simp only [List.cons_append] at h1
  simp [matchShort, h1, dropWhileL, hed]

theorem matchShort_colon_none (ds es : List Char)
    (hd : ds ≠ []) (hd2 : ∀ c ∈ ds, isDigitC c = true) :
    matchShort (ds ++ ':' :: es) = none := by
  obtain ⟨d, ds2, rfl⟩ : ∃ d ds2, ds = d :: ds2 := by
    cases ds with
    | nil => exact absurd rfl hd
    | cons d ds2 => exact ⟨d, ds2, rfl⟩
  have h1 : spanDigits ((d :: ds2) ++ ':' :: es) = (d :: ds2, ':' :: es) :=
    spanDigits_append (d :: ds2) ':' es hd2 (by decide)
  have hdd : isSpaceC d = false := isSpaceC_of_digit d (hd2 d (by simp))
  simp only [List.cons_append] at h1
  simp [matchShort, h1, dropWhileL, hdd]

theorem matchLong_colon_none (ds es : List Char)
    (hd : ds ≠ []) (hd2 : ∀ c ∈ ds, isDigitC c = true) :
    matchLong (ds ++ ':' :: es) = none := by
  obtain ⟨d, ds2, rfl⟩ : ∃ d ds2, ds = d :: ds2 := by
    cases ds with
    | nil => exact absurd rfl hd
    | cons d ds2 => exact ⟨d, ds2, rfl⟩
  have h1 : spanDigits ((d :: ds2) ++ ':' :: es) = (d :: ds2, ':' :: es) :=
    spanDigits_append (d :: ds2) ':' es hd2 (by decide)
  have hdd : isSpaceC d = false := isSpaceC_of_digit d (hd2 d (by simp))
  simp only [List.cons_append] at h1
  simp [matchLong, h1, dropWhileL, hdd, wordTail, isPrefixL]

theorem matchColon_pair (ds es : List Char)
    (hd : ds ≠ []) (hd2 : ∀ c ∈ ds, isDigitC c = true)
    (he : es ≠ []) (he2 : ∀ c ∈ es, isDigitC c = true) :
    matchColon (ds ++ ':' :: es) = some (digitsToNat ds, digitsToNat es) := by
  have h1 : spanDigits (ds ++ ':' :: es) = (ds, ':' :: es) :=
    spanDigits_append ds ':' es hd2 (by decide)
  have h2 : spanDigits es = (es, []) := spanDigits_all es he2
  simp [matchColon, h1, h2, hd, he]

theorem stripL_eq_self_of_head_last (s : List Char) (d0 e2 : Char)
    (h1 : ∃ u, s = d0 :: u) (h2 : ∃ v, s.reverse = e2 :: v)
    (hd : isSpaceC d0 = false) (he : isSpaceC e2 = false) : stripL s = s := by
  obtain ⟨u, hu⟩ := h1
  obtain ⟨v, hv⟩ := h2
  apply stripL_of_ends
  · rw [hu]
    exact dropWhileL_cons_false _ _ _ hd
  · rw [hv]
    exact dropWhileL_cons_false _ _ _ he

/-! ## C7: the relative short form -/

/-- C7: for the relative short forms, parse_time is the additive translation
by the stated amount of seconds: with N the value of the digit group before h
and M the value of the digit group before m, an input N h and M m (in the
source syntax, for example 1h 30m) yields now + N*3600 + M*60, an input of
just the hours token yields now + N*3600, and an input of just the minutes
token yields now + M*60. -/
theorem c7_relative_short_form (ds es : List Char) (now : Int)
    (hd : ds ≠ []) (hd2 : ∀ c ∈ ds, isDigitC c = true)
    (he : es ≠ []) (he2 : ∀ c ∈ es, isDigitC c = true) :
    parse_time (ds ++ 'h' :: ' ' :: (es ++ ('m') :: [])) now
        = some (now + (digitsToNat ds : Int) * 3600 + (digitsToNat es : Int) * 60) ∧
    parse_time (ds ++ ('h') :: []) now = some (now + (digitsToNat ds : Int) * 3600) ∧
    parse_time (es ++ ('m') :: []) now = some (now + (digitsToNat es : Int) * 60) := by
  obtain ⟨d0, ds2, rfl⟩ : ∃ d0 ds2, ds = d0 :: ds2 := by
    cases ds with
    | nil => exact absurd rfl hd
    | cons d0 ds2 => exact ⟨d0, ds2, rfl⟩
  obtain ⟨e0, es2, rfl⟩ : ∃ e0 es2, es = e0 :: es2 := by
    cases es with
    | nil => exact absurd rfl he
    | cons e0 es2 => exact ⟨e0, es2, rfl⟩
  have hd0 : isSpaceC d0 = false := isSpaceC_of_digit d0 (hd2 d0 (by simp))
  have he0 : isSpaceC e0 = false := isSpaceC_of_digit e0 (he2 e0 (by simp))
  have hlowds : lowerL (d0 :: ds2) = d0 :: ds2 := lowerL_digits _ hd2
  have hlowes : lowerL (e0 :: es2) = e0 :: es2 := lowerL_digits _ he2
  refine ⟨?_, ?_, ?_⟩
  · have hlow : lowerL ((d0 :: ds2) ++ 'h' :: ' ' :: ((e0 :: es2) ++ ('m') :: []))
        = (d0 :: ds2) ++ 'h' :: ' ' :: ((e0 :: es2) ++ ('m') :: []) := by
      simp only [lowerL_append, lowerL_cons, hlowds, hlowes]
      simp [show lowerC 'h' = 'h' from by decide, show lowerC ' ' = ' ' from by decide,
        show lowerC 'm' = 'm' from by decide, lowerL]
    have hstr : stripL ((d0 :: ds2) ++ 'h' :: ' ' :: ((e0 :: es2) ++ ('m') :: []))
        = (d0 :: ds2) ++ 'h' :: ' ' :: ((e0 :: es2) ++ ('m') :: []) := by
      apply stripL_eq_self_of_head_last _ d0 'm' _ _ hd0 (by decide)
      · exact ⟨ds2 ++ 'h' :: ' ' :: ((e0 :: es2) ++ ('m') :: []), by simp⟩
      · refine ⟨((d0 :: ds2) ++ 'h' :: ' ' :: (e0 :: es2)).reverse, ?_⟩
        rw [show (d0 :: ds2) ++ 'h' :: ' ' :: ((e0 :: es2) ++ ('m') :: [])
            = ((d0 :: ds2) ++ 'h' :: ' ' :: (e0 :: es2)) ++ ('m') :: [] from by simp]
        simp
    have hms := matchShort_pair (d0 :: ds2) (e0 :: es2) hd hd2 he he2
    simp only [parse_time, hlow, hstr, hms]
  · have hlow : lowerL ((d0 :: ds2) ++ ('h') :: []) = (d0 :: ds2) ++ ('h') :: [] := by
      simp only [lowerL_append, lowerL_cons, hlowds]
      simp [show lowerC 'h' = 'h' from by decide, lowerL]
    have hstr : stripL ((d0 :: ds2) ++ ('h') :: []) = (d0 :: ds2) ++ ('h') :: [] := by
      apply stripL_eq_self_of_head_last _ d0 'h' _ _ hd0 (by decide)
      · exact ⟨ds2 ++ ('h') :: [], by simp⟩
      · exact ⟨(d0 :: ds2).reverse, by simp⟩
    have hms := matchShort_hours (d0 :: ds2) hd hd2
    simp only [parse_time, hlow, hstr, hms]
    simp
  · have hlow : lowerL ((e0 :: es2) ++ ('m') :: []) = (e0 :: es2) ++ ('m') :: [] := by
      simp only [lowerL_append, lowerL_cons, hlowes]
      simp [show lowerC 'm' = 'm' from by decide, lowerL]
    have hstr : stripL ((e0 :: es2) ++ ('m') :: []) = (e0 :: es2) ++ ('m') :: [] := by
      apply stripL_eq_self_of_head_last _ e0 'm' _ _ he0 (by decide)
      · exact ⟨es2 ++ ('m') :: [], by simp⟩
      · exact ⟨(e0 :: es2).reverse, by simp⟩
    have hms := matchShort_minutes (e0 :: es2) he he2
    simp only [parse_time, hlow, hstr, hms]
    simp

/-- Concrete instance of C7 at the input 1h 30m: now + 5400. -/
theorem c7_witness :
    parse_time ((('1') :: []) ++ 'h' :: ' ' :: ((('3') :: ('0') :: []) ++ ('m') :: [])) 1000
      = some 6400 := by
  have h := (c7_relative_short_form (('1') :: []) (('3') :: ('0') :: []) 1000
    (by decide) (by decide) (by decide) (by decide)).1
  rw [show (digitsToNat (('1') :: []) : Int) = 1 from by decide,
    show (digitsToNat (('3') :: ('0') :: []) : Int) = 30 from by decide] at h
  simpa using h

/-! ## C8: the clock-offset form -/

/-- C8: an input of the form H colon MM (digits, a colon, digits) is an
additive duration: parse_time returns now + H*3600 + MM*60, not a wall-clock
target, because the colon pattern is tried before the bare time-of-day rule;
this covers inputs such as 15:00 that the time-of-day sub-grammar would also
accept. -/
theorem c8_clock_offset_form (ds es : List Char) (now : Int)
    (hd : ds ≠ []) (hd2 : ∀ c ∈ ds, isDigitC c = true)
    (he : es ≠ []) (he2 : ∀ c ∈ es, isDigitC c = true) :
    parse_time (ds ++ ':' :: es) now
      = some (now + (digitsToNat ds : Int) * 3600 + (digitsToNat es : Int) * 60) := by
  obtain ⟨d0, ds2, rfl⟩ : ∃ d0 ds2, ds = d0 :: ds2 := by
    cases ds with
    | nil => exact absurd rfl hd
    | cons d0 ds2 => exact ⟨d0, ds2, rfl⟩
  obtain ⟨e2, v, hv⟩ : ∃ e2 v, es.reverse = e2 :: v := by
    cases h : es.reverse with
    | nil => exact absurd (by simpa using congrArg List.reverse h) he
    | cons a b => exact ⟨a, b, rfl⟩
  have he2mem : e2 ∈ es := by
    have : e2 ∈ es.reverse := by simp [hv]
    simpa using this
  have hd0 : isSpaceC d0 = false := isSpaceC_of_digit d0 (hd2 d0 (by simp))
  have hee : isSpaceC e2 = false := isSpaceC_of_digit e2 (he2 e2 he2mem)
  have hlow : lowerL ((d0 :: ds2) ++ ':' :: es) = (d0 :: ds2) ++ ':' :: es := by
    simp only [lowerL_append, lowerL_cons, lowerL_digits _ hd2, lowerL_digits _ he2]
    simp [show lowerC ':' = ':' from by decide]
  have hstr : stripL ((d0 :: ds2) ++ ':' :: es) = (d0 :: ds2) ++ ':' :: es := by
    apply stripL_eq_self_of_head_last _ d0 e2 _ _ hd0 hee
    · exact ⟨ds2 ++ ':' :: es, by simp⟩
    · exact ⟨v ++ ':' :: (d0 :: ds2).reverse, by simp [hv]⟩
  have h1 := matchShort_colon_none (d0 :: ds2) es hd hd2
  have h2 := matchLong_colon_none (d0 :: ds2) es hd hd2
  have h3 := matchColon_pair (d0 :: ds2) es hd hd2 he he2
  simp only [parse_time, hlow, hstr, h1, h2, h3]

/-! ## Lemmas for the day-name form -/

theorem matchShort_letter_none (c : Char) (cs : List Char)
    (hc : isDigitC c = false) (hs : isSpaceC c = false) :
    matchShort (c :: cs) = none := by
  simp [matchShort, spanDigits, hc, dropWhileL, hs]

theorem matchLong_letter_none (c : Char) (cs : List Char)
    (hc : isDigitC c = false) (hs : isSpaceC c = false) :
    matchLong (c :: cs) = none := by
  simp [matchLong, spanDigits, hc, dropWhileL, hs]

theorem matchColon_letter_none (c : Char) (cs : List Char)
    (hc : isDigitC c = false) :
    matchColon (c :: cs) = none := by
  simp [matchColon, spanDigits, hc]

theorem stripL_space_cons (t : List Char) (h : stripL t = t) : stripL (' ' :: t) = t := by
  obtain ⟨h1, h2⟩ := stripL_parts t h
  simp [stripL, dropWhileL, show isSpaceC ' ' = true from by decide, h1, h2]

theorem ptodA_lt (s : List Char) (v : Nat) (h : ptodA s = some v) : v < 86400 := by
  unfold ptodA at h
  repeat' split at h
  all_goals simp_all
  omega

theorem ptodB_lt (s : List Char) (v : Nat) (h : ptodB s = some v) : v < 86400 := by
  unfold ptodB at h
  repeat' split at h
  all_goals simp_all
  omega

theorem ptodC_lt (s : List Char) (v : Nat) (h : ptodC s = some v) : v < 86400 := by
  unfold ptodC at h
  repeat' split at h
  all_goals simp_all
  omega

theorem ptodD_lt (s : List Char) (v : Nat) (h : ptodD s = some v) : v < 86400 := by
  unfold ptodD at h
  repeat' split at h
  all_goals simp_all
  omega

theorem parse_time_of_day_lt (s : List Char) (v : Nat)
    (h : parse_time_of_day s = some v) : v < 86400 := by
  simp only [parse_time_of_day] at h
  cases hA : ptodA (stripL (lowerL s)) with
  | some w =>
    rw [hA] at h
    simp at h
    exact h ▸ ptodA_lt _ _ hA
  | none =>
    rw [hA] at h
    simp only [] at h
    cases hB : ptodB (stripL (lowerL s)) with
    | some w =>
      rw [hB] at h
      simp at h
      exact h ▸ ptodB_lt _ _ hB
    | none =>
      rw [hB] at h
      simp only [] at h
      cases hC : ptodC (stripL (lowerL s)) with
      | some w =>
        rw [hC] at h
        simp at h
        exact h ▸ ptodC_lt _ _ hC
      | none =>
        rw [hC] at h
        simp only [] at h
        exact ptodD_lt _ _ h

theorem c6_norm (nameL : List Char) (t : List Char)
    (hlow : lowerL t = t) (hstrip : stripL t = t)
    (hname : lowerL nameL = nameL)
    (hhead : ∃ c cs, nameL = c :: cs ∧ isSpaceC c = false)
    (ht : t ≠ []) :
    stripL (lowerL (nameL ++ ' ' :: t)) = nameL ++ ' ' :: t := by
  have hl : lowerL (nameL ++ ' ' :: t) = nameL ++ ' ' :: t := by
    rw [lowerL_append, hname, lowerL_cons, hlow, show lowerC ' ' = ' ' from by decide]
  rw [hl]
  obtain ⟨c, cs, hn, hc⟩ := hhead
  obtain ⟨e2, v2, hv2⟩ : ∃ e2 v2, t.reverse = e2 :: v2 := by
    cases h : t.reverse with
    | nil => exact absurd (by simpa using congrArg List.reverse h) ht
    | cons a b => exact ⟨a, b, rfl⟩
  have he2 : isSpaceC e2 = false := by
    have hp := (stripL_parts t hstrip).2
    obtain ⟨c3, cs3, heq, hval⟩ :=
      dropWhileL_head_false isSpaceC t.reverse hp (by simp [hv2])
    rw [hv2] at heq
    cases heq
    exact hval
  apply stripL_eq_self_of_head_last _ c e2
  · exact ⟨cs ++ ' ' :: t, by simp [hn]⟩
  · exact ⟨v2 ++ ' ' :: nameL.reverse, by simp [hv2]⟩
  · exact hc
  · exact he2

theorem parse_time_dayname_roll (nameL : List Char) (w : Int) (t : List Char) (v : Nat) (now : Int)
    (hfind : findTok daysOfWeek (nameL ++ ' ' :: t) = some (nameL, w, ' ' :: t))
    (hshort : matchShort (nameL ++ ' ' :: t) = none)
    (hlong : matchLong (nameL ++ ' ' :: t) = none)
    (hcolon : matchColon (nameL ++ ' ' :: t) = none)
    (hnottoday : isPrefixL todayStr (nameL ++ ' ' :: t) = false)
    (hnottom : isPrefixL tomorrowStr (nameL ++ ' ' :: t) = false)
    (hnorm : stripL (lowerL (nameL ++ ' ' :: t)) = nameL ++ ' ' :: t)
    (hts : stripL t = t)
    (hpt : parse_time_of_day t = some v) (hv : v ≠ 0)
    (hlt : (v : Int) < now % 86400)
    (hw : (Int.ediv now 86400 + 3) % 7 = w) :
    parse_time (nameL ++ ' ' :: t) now
      = some (now - now % 86400 + 7 * 86400 + (v : Int)) := by
  have hbound : v < 86400 := parse_time_of_day_lt t v hpt
  have hsp : stripL (' ' :: t) = t := stripL_space_cons t hts
  have hlen : nameL.length < (nameL ++ ' ' :: t).length := by
    simp
  have hmod : (now - now % 86400 + (v : Int)) % 86400 < now % 86400 := by
    have hv86 : (v : Int) % 86400 = (v : Int) := by omega
    have : (now - now % 86400 + (v : Int)) % 86400 = (v : Int) % 86400 := by omega
    omega
  simp only [parse_time, hnorm, hshort, hlong, hcolon, hnottoday, hnottom, hfind, hsp, hpt,
    hw, Bool.false_eq_true, if_false]
  rw [show (w - w) % 7 = (0 : Int) from by omega]
  rw [if_pos (⟨rfl, hlen⟩ : (0 : Int) = 0 ∧ nameL.length < (nameL ++ ' ' :: t).length)]
  rw [if_pos (⟨hv, hmod⟩ : v ≠ 0 ∧ (now - now % 86400 + (v : Int)) % 86400 < now % 86400)]
  rw [if_neg (by norm_num : ¬ (7 : Int) = 0)]
  simp only [afterDay, hpt]
  rw [if_pos (Or.inl (by norm_num : (0 : Int) < 7))]
  rw [if_pos hv]
  rw [if_neg (by rintro ⟨h7, h8⟩; norm_num at h7 :
    ¬ ((7 : Int) = 0 ∧ now - now % 86400 + 7 * 86400 + (v : Int) < now))]

/-- The seven full weekday names with their Python weekday numbers. -/
def fullDayNames : List (List Char × Int) :=
  [((('m') :: ('o') :: ('n') :: ('d') :: ('a') :: ('y') :: []), 0),
   ((('t') :: ('u') :: ('e') :: ('s') :: ('d') :: ('a') :: ('y') :: []), 1),
   ((('w') :: ('e') :: ('d') :: ('n') :: ('e') :: ('s') :: ('d') :: ('a') :: ('y') :: []), 2),
   ((('t') :: ('h') :: ('u') :: ('r') :: ('s') :: ('d') :: ('a') :: ('y') :: []), 3),
   ((('f') :: ('r') :: ('i') :: ('d') :: ('a') :: ('y') :: []), 4),
   ((('s') :: ('a') :: ('t') :: ('u') :: ('r') :: ('d') :: ('a') :: ('y') :: []), 5),
   ((('s') :: ('u') :: ('n') :: ('d') :: ('a') :: ('y') :: []), 6)]

set_option maxHeartbeats 2000000 in
/-- C6 amended: when now falls on weekday w and the input is the full name of
w followed by a time-of-day expression whose value v is nonzero (not exactly
midnight, which is falsy in the source) and strictly earlier than the current
time of day, parse_time resolves to the occurrence seven days ahead at that
time.  The original claim without the nonzero restriction fails at the
midnight input, see the counterexample. -/
theorem c6_amended_weekday_rollover (nameL : List Char) (w : Int) (t : List Char) (v : Nat)
    (now : Int)
    (hmem : (nameL, w) ∈ fullDayNames)
    (hlow : lowerL t = t) (hstrip : stripL t = t)
    (hpt : parse_time_of_day t = some v) (hv : v ≠ 0)
    (hlt : (v : Int) < now % 86400)
    (hw : (Int.ediv now 86400 + 3) % 7 = w) :
    parse_time (nameL ++ ' ' :: t) now
      = some (now - now % 86400 + 7 * 86400 + (v : Int)) := by
  have ht : t ≠ [] := by
    intro h0
    have hnone : parse_time_of_day ([] : List Char) = none := by decide
    rw [h0, hnone] at hpt
    cases hpt
  simp only [fullDayNames, List.mem_cons, List.not_mem_nil, or_false, Prod.mk.injEq] at hmem
  rcases hmem with ⟨h1, h2⟩ | ⟨h1, h2⟩ | ⟨h1, h2⟩ | ⟨h1, h2⟩ | ⟨h1, h2⟩ | ⟨h1, h2⟩ | ⟨h1, h2⟩ <;>
    subst h1 <;> subst h2
  · refine parse_time_dayname_roll _ _ t v now ?_ ?_ ?_ ?_ ?_ ?_ ?_ hstrip hpt hv hlt hw
    · simp +decide [findTok, daysOfWeek, isPrefixL]
    · exact matchShort_letter_none _ _ (by decide) (by decide)
    · exact matchLong_letter_none _ _ (by decide) (by decide)
    · exact matchColon_letter_none _ _ (by decide)
    · simp +decide [isPrefixL, todayStr]
    · simp +decide [isPrefixL, tomorrowStr]
    · exact c6_norm _ _ hlow hstrip (by decide) ⟨_, _, rfl, by decide⟩ ht
  · refine parse_time_dayname_roll _ _ t v now ?_ ?_ ?_ ?_ ?_ ?_ ?_ hstrip hpt hv hlt hw
    · simp +decide [findTok, daysOfWeek, isPrefixL]
    · exact matchShort_letter_none _ _ (by decide) (by decide)
    · exact matchLong_letter_none _ _ (by decide) (by decide)
    · exact matchColon_letter_none _ _ (by decide)
    · simp +decide [isPrefixL, todayStr]
    · simp +decide [isPrefixL, tomorrowStr]
    · exact c6_norm _ _ hlow hstrip (by decide) ⟨_, _, rfl, by decide⟩ ht
  · refine parse_time_dayname_roll _ _ t v now ?_ ?_ ?_ ?_ ?_ ?_ ?_ hstrip hpt hv hlt hw
    · simp +decide [findTok, daysOfWeek, isPrefixL]
    · exact matchShort_letter_none _ _ (by decide) (by decide)
    · exact matchLong_letter_none _ _ (by decide) (by decide)
    · exact matchColon_letter_none _ _ (by decide)
    · simp +decide [isPrefixL, todayStr]
    · simp +decide [isPrefixL, tomorrowStr]
    · exact c6_norm _ _ hlow hstrip (by decide) ⟨_, _, rfl, by decide⟩ ht
  · refine parse_time_dayname_roll _ _ t v now ?_ ?_ ?_ ?_ ?_ ?_ ?_ hstrip hpt hv hlt hw
    · simp +decide [findTok, daysOfWeek, isPrefixL]
    · exact matchShort_letter_none _ _ (by decide) (by decide)
    · exact matchLong_letter_none _ _ (by decide) (by decide)
    · exact matchColon_letter_none _ _ (by decide)
    · simp +decide [isPrefixL, todayStr]
    · simp +decide [isPrefixL, tomorrowStr]
    · exact c6_norm _ _ hlow hstrip (by decide) ⟨_, _, rfl, by decide⟩ ht
  · refine parse_time_dayname_roll _ _ t v now ?_ ?_ ?_ ?_ ?_ ?_ ?_ hstrip hpt hv hlt hw
    · simp +decide [findTok, daysOfWeek, isPrefixL]
    · exact matchShort_letter_none _ _ (by decide) (by decide)
    · exact matchLong_letter_none _ _ (by decide) (by decide)
    · exact matchColon_letter_none _ _ (by decide)
    · simp +decide [isPrefixL, todayStr]
    · simp +decide [isPrefixL, tomorrowStr]
    · exact c6_norm _ _ hlow hstrip (by decide) ⟨_, _, rfl, by decide⟩ ht
  · refine parse_time_dayname_roll _ _ t v now ?_ ?_ ?_ ?_ ?_ ?_ ?_ hstrip hpt hv hlt hw
    · simp +decide [findTok, daysOfWeek, isPrefixL]
    · exact matchShort_letter_none _ _ (by decide) (by decide)
    · exact matchLong_letter_none _ _ (by decide) (by decide)
    · exact matchColon_letter_none _ _ (by decide)
    · simp +decide [isPrefixL, todayStr]
    · simp +decide [isPrefixL, tomorrowStr]
    · exact c6_norm _ _ hlow hstrip (by decide) ⟨_, _, rfl, by decide⟩ ht
  · refine parse_time_dayname_roll _ _ t v now ?_ ?_ ?_ ?_ ?_ ?_ ?_ hstrip hpt hv hlt hw
    · simp +decide [findTok, daysOfWeek, isPrefixL]
    · exact matchShort_letter_none _ _ (by decide) (by decide)
    · exact matchLong_letter_none _ _ (by decide) (by decide)
    · exact matchColon_letter_none _ _ (by decide)
    · simp +decide [isPrefixL, todayStr]
    · simp +decide [isPrefixL, tomorrowStr]
    · exact c6_norm _ _ hlow hstrip (by decide) ⟨_, _, rfl, by decide⟩ ht

/-- Concrete instance of amended C6: friday 10am at Friday 15:00 resolves to
the following Friday at 10:00. -/
theorem c6_witness :
    parse_time ((('f') :: ('r') :: ('i') :: ('d') :: ('a') :: ('y') :: [])
      ++ ' ' :: (('1') :: ('0') :: ('a') :: ('m') :: [])) 140400 = some 727200 := by
  have h := c6_amended_weekday_rollover
    ((('f') :: ('r') :: ('i') :: ('d') :: ('a') :: ('y') :: [])) 4
    ((('1') :: ('0') :: ('a') :: ('m') :: [])) 36000 140400
    (by decide) (by decide) (by decide) (by decide) (by decide) (by decide) (by decide)
  simpa using h

/-- Concrete instance of C8 at the input 15:00: an additive offset of 15
hours, not the wall-clock target. -/
theorem c8_witness :
    parse_time ((('1') :: ('5') :: []) ++ ':' :: (('0') :: ('0') :: [])) 1000 = some 55000 := by
  have h := c8_clock_offset_form (('1') :: ('5') :: []) (('0') :: ('0') :: []) 1000
    (by decide) (by decide) (by decide) (by decide)
  rw [show (digitsToNat (('1') :: ('5') :: []) : Int) = 15 from by decide,
    show (digitsToNat (('0') :: ('0') :: []) : Int) = 0 from by decide] at h
  simpa using h
